import Mathlib

/-!
# Verification of the Cortex-AI retrieval core

A shallow embedding of the retrieval core of the Cortex-AI repository
(`utils/chunker.py`, `utils/embeddings.py`, with the call sites in
`backend/agent.py`), together with theorems settling the specification
claims about it.

Conventions of the embedding:
* Python strings are modelled as `List Char`; float arithmetic is modelled
  exactly over `ℝ` (`math.log` is `Real.log`, `np.linalg.norm` uses
  `Real.sqrt`); Python ints are `Nat`/`Int` as appropriate.
* The HuggingFace embedding HTTP call is modelled by an oracle
  `Nat → HFResponse` giving the outcome of each attempt of the retry loop.
* `np.argsort` (ascending, stable for the small arrays produced here) is
  modelled by a stable insertion sort of the index list; `[::-1]` is
  `List.reverse` and `[:top_k]` is Python slice semantics (`pySliceTo`).
-/

set_option maxRecDepth 8000

namespace CortexAI

/-! ## Python string primitives -/

/-- Python's whitespace class `\s` over ASCII: the characters recognised by
`str.strip`, `str.split()` and the `\s` regex class. -/
def pyIsSpace (c : Char) : Bool :=
  c = ' ' || c = '\t' || c = '\n' || c = '\r' || c = '\x0b' || c = '\x0c'

/-- Python `str.strip()`: drop leading and trailing whitespace. -/
def pyStrip (s : List Char) : List Char :=
  ((s.dropWhile pyIsSpace).reverse.dropWhile pyIsSpace).reverse

/-- Number of whitespace-separated words, i.e. `len(s.split())` in Python:
a left fold counting the starts of maximal non-whitespace runs (the `Bool`
tracks being inside a word). -/
def wcStep (st : Nat × Bool) (c : Char) : Nat × Bool :=
  if pyIsSpace c then (st.1, false) else ((if st.2 then st.1 else st.1 + 1), true)

def wordCount (s : List Char) : Nat :=
  (s.foldl wcStep (0, false)).1

/-- Scanner state for `re.split(r'\n\s*\n', text)`: emitted segments, the
current segment, and the pending whitespace run not yet attributed. -/
structure ParaSplitState where
  segs : List (List Char)
  cur : List Char
  pend : List Char

/-- One step of the `re.split(r'\n\s*\n', text)` scan.  A maximal
whitespace run separates iff it contains at least two `'\n'`; the greedy
match runs from its first to its last `'\n'`, so whitespace before the
first `'\n'` stays with the left segment and whitespace after the last
`'\n'` starts the right segment. -/
def paraStep (st : ParaSplitState) (c : Char) : ParaSplitState :=
  if pyIsSpace c then { st with pend := st.pend ++ [c] }
  else if 2 ≤ st.pend.count '\n' then
    { segs := st.segs ++ [st.cur ++ st.pend.takeWhile (· ≠ '\n')],
      cur := (st.pend.reverse.takeWhile (· ≠ '\n')).reverse ++ [c],
      pend := [] }
  else { segs := st.segs, cur := st.cur ++ st.pend ++ [c], pend := [] }

/-- End of the `re.split(r'\n\s*\n', text)` scan: a trailing whitespace
run may still hold one final separator match. -/
def paraSplitFinish (st : ParaSplitState) : List (List Char) :=
  if 2 ≤ st.pend.count '\n' then
    st.segs ++ [st.cur ++ st.pend.takeWhile (· ≠ '\n'),
                (st.pend.reverse.takeWhile (· ≠ '\n')).reverse]
  else st.segs ++ [st.cur ++ st.pend]

/-- Python `re.split(r'\n\s*\n', text)` from `chunk_text`. -/
def paraSplit (text : List Char) : List (List Char) :=
  paraSplitFinish (text.foldl paraStep ⟨[], [], []⟩)

/-- Scanner state for `re.split(r'(?<=[.!?])\s+(?=[A-Z])', text)`. -/
structure SentSplitState where
  segs : List (List Char)
  cur : List Char
  pend : List Char

/-- One step of the sentence-split scan: a (non-empty) whitespace run
separates iff the character before it is sentence-ending punctuation and
the character after it is an uppercase ASCII letter. -/
def sentStep (st : SentSplitState) (c : Char) : SentSplitState :=
  if pyIsSpace c then { st with pend := st.pend ++ [c] }
  else if st.pend ≠ [] ∧
      (st.cur.getLast? = some '.' ∨ st.cur.getLast? = some '!' ∨
        st.cur.getLast? = some '?') ∧ 'A' ≤ c ∧ c ≤ 'Z' then
    { segs := st.segs ++ [st.cur], cur := [c], pend := [] }
  else { st with cur := st.cur ++ st.pend ++ [c], pend := [] }

/-- Python `re.split(r'(?<=[.!?])\s+(?=[A-Z])', text)` (a trailing
whitespace run never separates: the lookahead needs a following letter). -/
def sentSplitRaw (text : List Char) : List (List Char) :=
  ((text.foldl sentStep ⟨[], [], []⟩).segs) ++
    [(text.foldl sentStep ⟨[], [], []⟩).cur ++ (text.foldl sentStep ⟨[], [], []⟩).pend]

/-- `_split_into_sentences` from `utils/chunker.py`: regex split, then strip
each piece and drop empty pieces. -/
def split_into_sentences (text : List Char) : List (List Char) :=
  ((sentSplitRaw text).map pyStrip).filter (· ≠ [])

/-- Scanner for `re.search(r'\[Page (\d+)\]', text)`: returns the digit
group of the first match, if any. -/
def detectPageGo : List Char → Option (List Char)
  | [] => none
  | c :: rest =>
    let s := c :: rest
    if "[Page ".toList.isPrefixOf s then
      let tl := s.drop 6
      let digits := tl.takeWhile Char.isDigit
      if digits ≠ [] ∧ (tl.drop digits.length).head? = some ']' then some digits
      else detectPageGo rest
    else detectPageGo rest

/-- `_detect_page` from `utils/chunker.py`: `"Page N"` on a match, else `""`. -/
def detect_page (text : List Char) : List Char :=
  match detectPageGo text with
  | some ds => "Page ".toList ++ ds
  | none => []

/-! ## Chunker (`utils/chunker.py`) -/

/-- `DocumentChunk` dataclass from `utils/chunker.py`. -/
structure DocumentChunk where
  content : List Char
  chunk_index : Nat
  filename : String
  file_type : String
  page_info : List Char := []
  metadata : List (String × String) := []
  deriving DecidableEq, Repr

/-- `CHUNK_SIZE` from `backend/config.py`. -/
def CHUNK_SIZE : Nat := 600

/-- `CHUNK_OVERLAP` from `backend/config.py`. -/
def CHUNK_OVERLAP : Nat := 100

/-- The separator `"\n\n"` joining buffered units into a chunk's content. -/
def nl2 : List Char := ['\n', '\n']

/-- Loop body of `_get_overlap_parts`: walk the reversed parts, keeping the
accumulated tail; stop (Python `break`) once adding the next part would
exceed the overlap budget and the tail is non-empty. -/
def overlapGo (overlap : Nat) : List (List Char) → List (List Char) → Nat → List (List Char)
  | [], result, _ => result
  | p :: rest, result, w =>
    let pw := wordCount p
    if w + pw > overlap ∧ result ≠ [] then result
    else overlapGo overlap rest (p :: result) (w + pw)

/-- `_get_overlap_parts` from `utils/chunker.py`. -/
def get_overlap_parts (parts : List (List Char)) (overlap : Nat) : List (List Char) :=
  overlapGo overlap parts.reverse [] 0

/-- Mutable loop state of `chunk_text`: emitted chunks, the pending unit
buffer and its running word count. -/
structure ChunkState where
  chunks : List DocumentChunk
  parts : List (List Char)
  wc : Nat
  deriving Repr

/-- Emission of one chunk in `chunk_text`: join the buffer with `"\n\n"`,
append a `DocumentChunk` carrying the next index and detected page info. -/
def emitChunk (fn ft : String) (chunks : List DocumentChunk)
    (parts : List (List Char)) : List DocumentChunk :=
  let content := List.intercalate nl2 parts
  chunks ++ [{ content := content, chunk_index := chunks.length, filename := fn,
               file_type := ft, page_info := detect_page content }]

/-- A flush inside the loop of `chunk_text`: emit the buffer, then refill it
with the overlap tail and recompute the running word count. -/
def flushState (fn ft : String) (overlap : Nat) (st : ChunkState) : ChunkState :=
  let chunks := emitChunk fn ft st.chunks st.parts
  let parts := get_overlap_parts st.parts overlap
  { chunks := chunks, parts := parts, wc := (parts.map wordCount).sum }

/-- The shared buffer/flush step applied to one unit (a paragraph in the
outer loop, a sentence in the inner loop of `chunk_text`). -/
def processUnit (fn ft : String) (cs ov : Nat) (st : ChunkState)
    (unit : List Char) : ChunkState :=
  let uwc := wordCount unit
  let st' := if st.wc + uwc > cs ∧ st.parts ≠ [] then flushState fn ft ov st else st
  { st' with parts := st'.parts ++ [unit], wc := st'.wc + uwc }

/-- One iteration of the paragraph loop of `chunk_text`: an oversized
paragraph first flushes any pending buffer, then feeds its sentences
through the same buffer logic; otherwise the paragraph is a single unit. -/
def processPara (fn ft : String) (cs ov : Nat) (st : ChunkState)
    (para : List Char) : ChunkState :=
  if wordCount para > cs then
    let st' := if st.parts ≠ [] then flushState fn ft ov st else st
    (split_into_sentences para).foldl (processUnit fn ft cs ov) st'
  else processUnit fn ft cs ov st para

/-- The final flush of `chunk_text`: emit any remaining buffer. -/
def chunkFinal (fn ft : String) (st : ChunkState) : List DocumentChunk :=
  if st.parts ≠ [] then emitChunk fn ft st.chunks st.parts else st.chunks

/-- The stripped, non-empty paragraphs `chunk_text` iterates over. -/
def chunkParagraphs (text : List Char) : List (List Char) :=
  ((paraSplit text).map pyStrip).filter (· ≠ [])

/-- `chunk_text` from `utils/chunker.py` (defaults `chunk_size = CHUNK_SIZE`,
`chunk_overlap = CHUNK_OVERLAP`). -/
def chunk_text (text : List Char) (fn ft : String) (cs ov : Nat) : List DocumentChunk :=
  if pyStrip text = [] then []
  else chunkFinal fn ft
    ((chunkParagraphs text).foldl (processPara fn ft cs ov) ⟨[], [], 0⟩)

/-! ## Helper lemmas about the chunker -/

lemma intercalate_single (s a : List Char) : List.intercalate s [a] = a := by
  simp [List.intercalate, List.intersperse]

lemma intercalate_pair (s a b : List Char) : List.intercalate s [a, b] = a ++ s ++ b := by
  simp [List.intercalate, List.intersperse]

/-- While the pending paragraphs all fit in the remaining budget, the loop
of `chunk_text` only accumulates into the buffer and never flushes. -/
lemma foldl_processPara_no_flush (fn ft : String) (cs ov : Nat) :
    ∀ (paras : List (List Char)) (st : ChunkState),
      st.wc + (paras.map wordCount).sum ≤ cs →
      paras.foldl (processPara fn ft cs ov) st =
        ⟨st.chunks, st.parts ++ paras, st.wc + (paras.map wordCount).sum⟩ := by
  intro paras
  induction paras with
  | nil => intro st _; simp
  | cons p ps ih =>
    intro st hle
    simp only [List.map_cons, List.sum_cons] at hle
    have hwp : ¬ wordCount p > cs := by omega
    have hc : ¬ (st.wc + wordCount p > cs ∧ st.parts ≠ []) := by
      intro hk; omega
    simp only [List.foldl_cons, processPara, hwp, if_false, processUnit, hc, if_neg hc]
    rw [ih]
    · simp only [List.map_cons, List.sum_cons, List.append_assoc, List.singleton_append,
        Nat.add_assoc]
    · simp only [List.map_cons, List.sum_cons]
      omega

/-! ## Claim theorems about the chunker -/

/-- **C8, counterexample.** The input `"a\n\n\nb"` has 2 words (fewer than
`CHUNK_SIZE = 600`) and is not whitespace-only, yet the single chunk
returned by `chunk_text` has content `"a\n\nb"`, which differs from the
whitespace-trimmed input `"a\n\n\nb"`: blank-line separators are collapsed
to exactly `"\n\n"` when the paragraphs are rejoined. -/
theorem chunk_text_content_ne_trimmed_input :
    pyStrip "a\n\n\nb".toList = "a\n\n\nb".toList ∧
    "a\n\n\nb".toList ≠ [] ∧
    wordCount "a\n\n\nb".toList = 2 ∧ 2 < CHUNK_SIZE ∧
    (chunk_text "a\n\n\nb".toList "f.txt" "txt" CHUNK_SIZE CHUNK_OVERLAP).map
        DocumentChunk.content = ["a\n\nb".toList] ∧
    "a\n\nb".toList ≠ "a\n\n\nb".toList := by
  decide

/-- **C8, amended.** For a non-whitespace input whose paragraphs' total
word count does not exceed `chunk_size`, `chunk_text` returns exactly one
chunk, and that chunk's content is the blank-line-separated paragraphs of
the input, each whitespace-trimmed, rejoined with `"\n\n"` (this equals the
trimmed input precisely when the separators are already exactly `"\n\n"`
and the paragraphs carry no outer whitespace). -/
theorem chunk_text_small_input (text : List Char) (fn ft : String) (cs ov : Nat)
    (hne : pyStrip text ≠ [])
    (hps : chunkParagraphs text ≠ [])
    (hsum : ((chunkParagraphs text).map wordCount).sum ≤ cs) :
    chunk_text text fn ft cs ov =
      [{ content := List.intercalate nl2 (chunkParagraphs text),
         chunk_index := 0, filename := fn, file_type := ft,
         page_info := detect_page (List.intercalate nl2 (chunkParagraphs text)) }] := by
  unfold chunk_text
  rw [if_neg (by exact hne)]
  rw [foldl_processPara_no_flush fn ft cs ov _ _ (by simpa using hsum)]
  unfold chunkFinal
  simp only [List.nil_append, Nat.zero_add]
  rw [if_pos (by simpa using hps)]
  simp [emitChunk]

/-- Concrete witness input for `chunk_text_small_input`. -/
theorem chunk_text_small_input_witness :
    pyStrip "hello world".toList ≠ [] ∧
    chunkParagraphs "hello world".toList ≠ [] ∧
    ((chunkParagraphs "hello world".toList).map wordCount).sum ≤ 600 ∧
    chunk_text "hello world".toList "f.txt" "txt" 600 100 =
      [{ content := List.intercalate nl2 (chunkParagraphs "hello world".toList),
         chunk_index := 0, filename := "f.txt", file_type := "txt",
         page_info := detect_page
           (List.intercalate nl2 (chunkParagraphs "hello world".toList)) }] :=
  ⟨by decide, by decide, by decide,
   chunk_text_small_input "hello world".toList "f.txt" "txt" 600 100
     (by decide) (by decide) (by decide)⟩
/-! ## A concrete 300-word paragraph family for the end-to-end chunking claim -/

/-- `wRep n` is `n + 1` copies of the word `"w"` joined by single spaces. -/
def wRep : Nat → List Char
  | 0 => ['w']
  | n + 1 => 'w' :: ' ' :: wRep n

/-- A concrete 300-word paragraph. -/
def para300 : List Char := wRep 299

/-- Three 300-word paragraphs separated by blank lines. -/
def input3 : List Char := para300 ++ nl2 ++ para300 ++ nl2 ++ para300

@[simp] lemma pyIsSpace_w : pyIsSpace 'w' = false := rfl

@[simp] lemma pyIsSpace_blank : pyIsSpace ' ' = true := rfl

@[simp] lemma pyIsSpace_newline : pyIsSpace '\n' = true := rfl

/-- The word-counting fold over `wRep n`, from outside a word. -/
lemma foldl_wcStep_wRep : ∀ (n k : Nat),
    (wRep n).foldl wcStep (k, false) = (k + n + 1, true)
  | 0, k => by simp [wRep, wcStep]
  | n + 1, k => by
      have ih := foldl_wcStep_wRep n (k + 1)
      simp only [wRep, List.foldl_cons, wcStep, pyIsSpace_w, pyIsSpace_blank] at ih ⊢
      simpa [Nat.add_assoc, Nat.add_comm, Nat.add_left_comm] using ih

lemma wordCount_wRep (n : Nat) : wordCount (wRep n) = n + 1 := by
  unfold wordCount
  rw [foldl_wcStep_wRep]
  simp

lemma wordCount_para300 : wordCount para300 = 300 := by
  unfold para300
  rw [wordCount_wRep]

lemma wRep_ne_nil (n : Nat) : wRep n ≠ [] := by
  cases n <;> simp [wRep]

lemma wRep_head : ∀ n : Nat, ∃ t, wRep n = 'w' :: t
  | 0 => ⟨[], rfl⟩
  | n + 1 => ⟨' ' :: wRep n, rfl⟩

lemma wRep_reverse : ∀ n : Nat, ∃ t, (wRep n).reverse = 'w' :: t
  | 0 => ⟨[], rfl⟩
  | n + 1 => by
      obtain ⟨t, ht⟩ := wRep_reverse n
      exact ⟨t ++ [' ', 'w'], by simp [wRep, ht]⟩

lemma pyStrip_wRep (n : Nat) : pyStrip (wRep n) = wRep n := by
  obtain ⟨t, ht⟩ := wRep_head n
  obtain ⟨r, hr⟩ := wRep_reverse n
  unfold pyStrip
  rw [ht, List.dropWhile_cons]
  simp only [pyIsSpace_w, Bool.false_eq_true, if_false]
  rw [← ht, hr, List.dropWhile_cons]
  simp only [pyIsSpace_w, Bool.false_eq_true, if_false]
  rw [← hr, List.reverse_reverse]

lemma w_mem_wRep (n : Nat) : 'w' ∈ wRep n := by
  obtain ⟨t, ht⟩ := wRep_head n
  rw [ht]
  exact List.mem_cons_self _ _

/-- If some non-whitespace character is in `s`, stripping cannot empty it. -/
lemma pyStrip_ne_nil {s : List Char} (c : Char) (hc : c ∈ s)
    (hsp : pyIsSpace c = false) : pyStrip s ≠ [] := by
  intro h
  unfold pyStrip at h
  have h1 : ((s.dropWhile pyIsSpace).reverse).dropWhile pyIsSpace = [] := by
    simpa using h
  rw [List.dropWhile_eq_nil_iff] at h1
  have h3 : pyIsSpace c = true := by
    rcases (by
        rw [← List.takeWhile_append_dropWhile (p := pyIsSpace) (l := s)] at hc
        exact List.mem_append.mp hc) with h | h
    · exact List.mem_takeWhile_imp h
    · exact h1 c (List.mem_reverse.mpr h)
  rw [hsp] at h3
  exact Bool.false_ne_true h3

lemma pyStrip_input3_ne_nil : pyStrip input3 ≠ [] :=
  pyStrip_ne_nil 'w'
    (by
      unfold input3 para300
      exact List.mem_append_left _ (List.mem_append_left _ (List.mem_append_left _
        (List.mem_append_left _ (w_mem_wRep 299)))))
    rfl

/-- `paraStep` on a non-whitespace character with at most one pending
newline: the pending run is merged into the current segment. -/
lemma paraStep_nonspace (segs : List (List Char)) (cur pend : List Char)
    (c : Char) (hc : pyIsSpace c = false) (h : pend.count '\n' ≤ 1) :
    paraStep ⟨segs, cur, pend⟩ c = ⟨segs, cur ++ pend ++ [c], []⟩ := by
  have h2 : ¬ 2 ≤ pend.count '\n' := by omega
  simp [paraStep, hc, h2]

/-- `paraStep` on a whitespace character: it joins the pending run. -/
lemma paraStep_space (segs : List (List Char)) (cur pend : List Char)
    (c : Char) (hc : pyIsSpace c = true) :
    paraStep ⟨segs, cur, pend⟩ c = ⟨segs, cur, pend ++ [c]⟩ := by
  simp [paraStep, hc]

/-- `paraStep` on `'w'` after a pending `"\n\n"` run: the separator splits
the current segment off. -/
lemma paraStep_split_w (segs : List (List Char)) (cur : List Char) :
    paraStep ⟨segs, cur, ['\n', '\n']⟩ 'w' = ⟨segs ++ [cur], ['w'], []⟩ := by
  simp [paraStep, List.count_cons, List.takeWhile]

/-- Folding `paraStep` over a paragraph `wRep n` when at most one newline
is pending: everything joins the current segment. -/
lemma foldl_paraStep_wRep : ∀ (n : Nat) (segs : List (List Char)) (cur pend : List Char),
    pend.count '\n' ≤ 1 →
    List.foldl paraStep ⟨segs, cur, pend⟩ (wRep n) = ⟨segs, cur ++ pend ++ wRep n, []⟩
  | 0, segs, cur, pend, h => by
      simp only [wRep, List.foldl_cons, List.foldl_nil]
      rw [paraStep_nonspace segs cur pend 'w' rfl h]
  | n + 1, segs, cur, pend, h => by
      simp only [wRep, List.foldl_cons]
      rw [paraStep_nonspace segs cur pend 'w' rfl h,
          paraStep_space segs (cur ++ pend ++ ['w']) [] ' ' rfl]
      simp only [List.nil_append]
      rw [foldl_paraStep_wRep n segs (cur ++ pend ++ ['w']) [' '] (by simp)]
      simp [wRep]

/-- Folding `paraStep` over a paragraph `wRep n` after a pending `"\n\n"`:
the old segment is emitted and the paragraph becomes the new segment. -/
lemma foldl_paraStep_wRep_split : ∀ (n : Nat) (segs : List (List Char)) (cur : List Char),
    List.foldl paraStep ⟨segs, cur, ['\n', '\n']⟩ (wRep n) = ⟨segs ++ [cur], wRep n, []⟩
  | 0, segs, cur => by
      simp only [wRep, List.foldl_cons, List.foldl_nil, paraStep_split_w]
  | n + 1, segs, cur => by
      simp only [wRep, List.foldl_cons]
      rw [paraStep_split_w, paraStep_space (segs ++ [cur]) ['w'] [] ' ' rfl]
      simp only [List.nil_append]
      rw [foldl_paraStep_wRep n (segs ++ [cur]) ['w'] [' '] (by simp)]
      simp [wRep]

lemma foldl_paraStep_nl2 (segs : List (List Char)) (cur : List Char) :
    List.foldl paraStep ⟨segs, cur, []⟩ nl2 = ⟨segs, cur, ['\n', '\n']⟩ := by
  simp only [nl2, List.foldl_cons, List.foldl_nil]
  rw [paraStep_space segs cur [] '\n' rfl]
  simp only [List.nil_append]
  rw [paraStep_space segs cur ['\n'] '\n' rfl]
  simp

lemma paraSplit_input3 : paraSplit input3 = [para300, para300, para300] := by
  have h1 : List.foldl paraStep ⟨[], [], []⟩ para300 = ⟨[], para300, []⟩ := by
    unfold para300
    rw [foldl_paraStep_wRep 299 [] [] [] (by simp)]
    simp
  have h3 : List.foldl paraStep ⟨[], para300, ['\n', '\n']⟩ para300 =
      ⟨[para300], para300, []⟩ := by
    unfold para300
    rw [foldl_paraStep_wRep_split 299]
    simp
  have h5 : List.foldl paraStep ⟨[para300], para300, ['\n', '\n']⟩ para300 =
      ⟨[para300, para300], para300, []⟩ := by
    unfold para300
    rw [foldl_paraStep_wRep_split 299]
    simp
  unfold paraSplit input3
  rw [List.foldl_append, List.foldl_append, List.foldl_append, List.foldl_append,
      h1, foldl_paraStep_nl2, h3, foldl_paraStep_nl2, h5]
  simp [paraSplitFinish]

/-- The shared computation behind the end-to-end three-paragraph claim. -/
lemma chunk_three_aux (p1 p2 p3 : List Char) (fn ft : String)
    (s1 : pyStrip p1 = p1) (s2 : pyStrip p2 = p2) (s3 : pyStrip p3 = p3)
    (n1 : p1 ≠ []) (n2 : p2 ≠ []) (n3 : p3 ≠ [])
    (w1 : wordCount p1 = 300) (w2 : wordCount p2 = 300) (w3 : wordCount p3 = 300)
    (hsplit : paraSplit (p1 ++ nl2 ++ p2 ++ nl2 ++ p3) = [p1, p2, p3])
    (hstrip : pyStrip (p1 ++ nl2 ++ p2 ++ nl2 ++ p3) ≠ []) :
    chunk_text (p1 ++ nl2 ++ p2 ++ nl2 ++ p3) fn ft 600 100 =
      [{ content := p1 ++ nl2 ++ p2, chunk_index := 0, filename := fn, file_type := ft,
         page_info := detect_page (p1 ++ nl2 ++ p2) },
       { content := p2 ++ nl2 ++ p3, chunk_index := 1, filename := fn, file_type := ft,
         page_info := detect_page (p2 ++ nl2 ++ p3) }] ∧
    get_overlap_parts [p1, p2] 100 = [p2] := by
  have hov : get_overlap_parts [p1, p2] 100 = [p2] := by
    simp [get_overlap_parts, overlapGo, w1, w2]
  refine ⟨?_, hov⟩
  unfold chunk_text
  rw [if_neg (by exact hstrip)]
  have hpar : chunkParagraphs (p1 ++ nl2 ++ p2 ++ nl2 ++ p3) = [p1, p2, p3] := by
    unfold chunkParagraphs
    rw [hsplit]
    simp only [List.map_cons, List.map_nil, s1, s2, s3]
    rw [List.filter_cons_of_pos (by simpa using n1),
        List.filter_cons_of_pos (by simpa using n2),
        List.filter_cons_of_pos (by simpa using n3), List.filter_nil]
  rw [hpar]
  simp only [List.foldl_cons, List.foldl_nil]
  rw [show processPara fn ft 600 100 ⟨[], [], 0⟩ p1 = ⟨[], [p1], 300⟩ by
        simp [processPara, processUnit, w1]]
  rw [show processPara fn ft 600 100 ⟨[], [p1], 300⟩ p2 = ⟨[], [p1, p2], 600⟩ by
        simp [processPara, processUnit, w2]]
  rw [show processPara fn ft 600 100 ⟨[], [p1, p2], 600⟩ p3 =
        ⟨[{ content := p1 ++ nl2 ++ p2, chunk_index := 0, filename := fn, file_type := ft,
            page_info := detect_page (p1 ++ nl2 ++ p2) }], [p2, p3], 600⟩ by
        simp only [processPara, w3]
        rw [if_neg (by omega)]
        simp only [processUnit, flushState, emitChunk, hov]
        simp [intercalate_pair, w2, w3]]
  unfold chunkFinal
  rw [if_pos (by simp)]
  simp [emitChunk, intercalate_pair]

/-- **C3, counterexample.** On three concrete 300-word paragraphs with
`chunk_size = 600`, `overlap = 100`, `chunk_text` does emit two chunks with
chunk 0 = paragraphs 1+2, but the overlap tail that begins chunk 1 is the
*whole 300-word* paragraph 2 — `_get_overlap_parts` always keeps at least
one unit — so the tail is not "at most 100 words" as the claim states:
chunk 1 is paragraph 2 (300 words) followed by paragraph 3. -/
theorem chunk_text_overlap_exceeds_budget :
    (chunk_text input3 "f.txt" "txt" 600 100).map (fun c => (c.content, c.chunk_index)) =
      [(para300 ++ nl2 ++ para300, 0), (para300 ++ nl2 ++ para300, 1)] ∧
    get_overlap_parts [para300, para300] 100 = [para300] ∧
    wordCount para300 = 300 ∧ ¬ wordCount para300 ≤ 100 := by
  obtain ⟨h1, h2⟩ := chunk_three_aux para300 para300 para300 "f.txt" "txt"
    (pyStrip_wRep 299) (pyStrip_wRep 299) (pyStrip_wRep 299)
    (wRep_ne_nil 299) (wRep_ne_nil 299) (wRep_ne_nil 299)
    wordCount_para300 wordCount_para300 wordCount_para300
    paraSplit_input3 pyStrip_input3_ne_nil
  refine ⟨?_, h2, wordCount_para300, by rw [wordCount_para300]; omega⟩
  rw [show chunk_text input3 "f.txt" "txt" 600 100 =
        chunk_text (para300 ++ nl2 ++ para300 ++ nl2 ++ para300) "f.txt" "txt" 600 100
      from rfl, h1]
  rfl

/-- **C3, amended.** For any three 300-word blank-line-separated paragraphs
(each already trimmed and non-empty), chunking with `chunk_size = 600`,
`overlap = 100` yields exactly two chunks: chunk 0 is paragraphs 1+2
(600 words), and chunk 1 begins with an overlap tail from chunk 0 that is a
whole paragraph unit — namely all of paragraph 2, 300 words, kept despite
exceeding the 100-word budget because the overlap rule always keeps at
least one unit — followed by paragraph 3. -/
theorem chunk_text_three_paragraphs (p1 p2 p3 : List Char) (fn ft : String)
    (s1 : pyStrip p1 = p1) (s2 : pyStrip p2 = p2) (s3 : pyStrip p3 = p3)
    (n1 : p1 ≠ []) (n2 : p2 ≠ []) (n3 : p3 ≠ [])
    (w1 : wordCount p1 = 300) (w2 : wordCount p2 = 300) (w3 : wordCount p3 = 300)
    (hsplit : paraSplit (p1 ++ nl2 ++ p2 ++ nl2 ++ p3) = [p1, p2, p3])
    (hstrip : pyStrip (p1 ++ nl2 ++ p2 ++ nl2 ++ p3) ≠ []) :
    chunk_text (p1 ++ nl2 ++ p2 ++ nl2 ++ p3) fn ft 600 100 =
      [{ content := p1 ++ nl2 ++ p2, chunk_index := 0, filename := fn, file_type := ft,
         page_info := detect_page (p1 ++ nl2 ++ p2) },
       { content := p2 ++ nl2 ++ p3, chunk_index := 1, filename := fn, file_type := ft,
         page_info := detect_page (p2 ++ nl2 ++ p3) }] ∧
    get_overlap_parts [p1, p2] 100 = [p2] :=
  chunk_three_aux p1 p2 p3 fn ft s1 s2 s3 n1 n2 n3 w1 w2 w3 hsplit hstrip

/-- Concrete witness input for `chunk_text_three_paragraphs`: three
paragraphs of 300 words `"w"` each. -/
theorem chunk_text_three_paragraphs_witness :
    wordCount para300 = 300 ∧ para300 ≠ [] ∧
    chunk_text (para300 ++ nl2 ++ para300 ++ nl2 ++ para300) "f.txt" "txt" 600 100 =
      [{ content := para300 ++ nl2 ++ para300, chunk_index := 0, filename := "f.txt",
         file_type := "txt", page_info := detect_page (para300 ++ nl2 ++ para300) },
       { content := para300 ++ nl2 ++ para300, chunk_index := 1, filename := "f.txt",
         file_type := "txt", page_info := detect_page (para300 ++ nl2 ++ para300) }] ∧
    get_overlap_parts [para300, para300] 100 = [para300] :=
  ⟨wordCount_para300, wRep_ne_nil 299,
   (chunk_text_three_paragraphs para300 para300 para300 "f.txt" "txt"
     (pyStrip_wRep 299) (pyStrip_wRep 299) (pyStrip_wRep 299)
     (wRep_ne_nil 299) (wRep_ne_nil 299) (wRep_ne_nil 299)
     wordCount_para300 wordCount_para300 wordCount_para300
     paraSplit_input3 pyStrip_input3_ne_nil).1,
   (chunk_text_three_paragraphs para300 para300 para300 "f.txt" "txt"
     (pyStrip_wRep 299) (pyStrip_wRep 299) (pyStrip_wRep 299)
     (wRep_ne_nil 299) (wRep_ne_nil 299) (wRep_ne_nil 299)
     wordCount_para300 wordCount_para300 wordCount_para300
     paraSplit_input3 pyStrip_input3_ne_nil).2⟩

/-! ## BM25 (`utils/embeddings.py`) -/

/-- Python `\w` over ASCII: letters, digits and underscore. -/
def pyIsWordChar (c : Char) : Bool := c.isAlpha || c.isDigit || c = '_'

/-- One step of the `re.findall(r'\w+', ...)` scan: accumulate the current
token, flushing it when a non-word character ends it. -/
def tokStep (st : List (List Char) × List Char) (c : Char) :
    List (List Char) × List Char :=
  if pyIsWordChar c then (st.1, st.2 ++ [c])
  else if st.2 ≠ [] then (st.1 ++ [st.2], []) else st

/-- Flush a trailing token at the end of the scan. -/
def tokFinish (st : List (List Char) × List Char) : List (List Char) :=
  if st.2 ≠ [] then st.1 ++ [st.2] else st.1

/-- `BM25._tokenize`: `re.findall(r'\w+', text.lower())` (an empty text
yields no tokens, matching the early return in the source). -/
def tokenize (text : List Char) : List (List Char) :=
  tokFinish ((text.map Char.toLower).foldl tokStep ([], []))

/-- The `BM25` class state.  `doc_freqs` (a Python dict from term to the
number of documents containing it) is modelled as the counting function
itself: a term is "in the dict" iff its count is positive, which holds
exactly for the terms `fit` inserts. -/
structure BM25 where
  k1 : ℝ
  b : ℝ
  corpus_size : Nat
  avg_dl : ℝ
  doc_freqs : List Char → Nat
  doc_lens : List Nat
  tokenized_corpus : List (List (List Char))

/-- `BM25.__init__` with its default parameters `k1 = 1.5`, `b = 0.75`. -/
noncomputable def bm25Init : BM25 :=
  { k1 := 3/2, b := 3/4, corpus_size := 0, avg_dl := 0,
    doc_freqs := fun _ => 0, doc_lens := [], tokenized_corpus := [] }

/-- `BM25.fit` from `utils/embeddings.py`. -/
noncomputable def bm25_fit (st : BM25) (corpus : List (List Char)) : BM25 :=
  let tokenized := corpus.map tokenize
  { st with
    tokenized_corpus := tokenized,
    corpus_size := corpus.length,
    doc_lens := tokenized.map List.length,
    avg_dl := (((tokenized.map List.length).sum : Nat) : ℝ) / ((max corpus.length 1 : Nat) : ℝ),
    doc_freqs := fun t => (tokenized.filter (fun d => t ∈ d)).length }

/-- The per-term idf of `BM25.score`: `log((N - df + 0.5)/(df + 0.5) + 1)`. -/
noncomputable def bm25_idf (st : BM25) (df : Nat) : ℝ :=
  Real.log (((st.corpus_size : ℝ) - (df : ℝ) + 1/2) / ((df : ℝ) + 1/2) + 1)

/-- The per-document denominator of `BM25.score`:
`tf + k1 * (1 - b + b * dl / avg_dl)`. -/
noncomputable def bm25_denom (st : BM25) (tf dl : Nat) : ℝ :=
  (tf : ℝ) + st.k1 * (1 - st.b + st.b * (dl : ℝ) / st.avg_dl)

/-- `BM25.score` from `utils/embeddings.py`: accumulate, over the query
tokens present in `doc_freqs`, the BM25 contribution per document. -/
noncomputable def bm25_score (st : BM25) (query : List Char) : List ℝ :=
  if st.corpus_size = 0 ∨ tokenize query = [] then List.replicate st.corpus_size 0
  else (tokenize query).foldl (fun scores token =>
    if st.doc_freqs token = 0 then scores
    else scores.mapIdx (fun i s =>
      let tf := (st.tokenized_corpus.getD i []).count token
      let dl := st.doc_lens.getD i 0
      s + bm25_idf st (st.doc_freqs token) * ((tf : ℝ) * (st.k1 + 1) / bm25_denom st tf dl)))
    (List.replicate st.corpus_size 0)

/-! ## The embedding call (`VectorStore.embed`) -/

/-- The decoded JSON body of a successful HuggingFace response: a single
vector for one input, a list of vectors otherwise (the source comment
documents exactly these two shapes). -/
inductive HFPayload where
  | one (v : List ℝ)
  | many (rows : List (List ℝ))

/-- The `res.ndim == 1` reshape of `VectorStore.embed`. -/
def HFPayload.toMatrix : HFPayload → List (List ℝ)
  | .one v => [v]
  | .many rows => rows

/-- Outcome of one HTTP attempt of `VectorStore.embed`: HTTP 200 with a
payload, HTTP 503 (model loading, sleep and retry), any other status
(break), or a raised `requests` exception such as a timeout (break). -/
inductive HFResponse where
  | success (p : HFPayload)
  | loading
  | failure
  | exept

/-- `EMBEDDING_DIMENSION` (the hard-coded `dim = 384` of `embed`). -/
def EMBED_DIM : Nat := 384

/-- An all-zero `n × d` matrix: `np.zeros((n, d))`. -/
noncomputable def zerosMatrix (n d : Nat) : List (List ℝ) := List.replicate n (List.replicate d 0)

/-- The `for _ in range(3)` retry loop of `VectorStore.embed`, driven by an
oracle giving each attempt's outcome; `none` means the loop fell through
(break or exhaustion) to the zero-matrix fallback. -/
noncomputable def embedLoop (responses : Nat → HFResponse) : Nat → Nat → Option (List (List ℝ))
  | _, 0 => none
  | attempt, fuel + 1 =>
    match responses attempt with
    | .success p => some p.toMatrix
    | .loading => embedLoop responses (attempt + 1) fuel
    | .failure => none
    | .exept => none

/-- `VectorStore.embed` from `utils/embeddings.py`: an unset token or empty
input short-circuits to zeros; otherwise up to 3 attempts, falling back to
an all-zero matrix with one 384-dimensional row per text. -/
noncomputable def embed (hf_token : String) (responses : Nat → HFResponse)
    (texts : List (List Char)) : List (List ℝ) :=
  if hf_token = "" ∨ texts = [] then zerosMatrix texts.length EMBED_DIM
  else (embedLoop responses 0 3).getD (zerosMatrix texts.length EMBED_DIM)

/-! ## `VectorStore` state and mutations -/

/-- `VectorStore` from `utils/embeddings.py`: optional embedding matrix,
chunk list, BM25 index, `_initialized` flag and the environment token. -/
structure VectorStore where
  embeddings : Option (List (List ℝ))
  chunks : List DocumentChunk
  bm25 : BM25
  initialized : Bool
  hf_token : String

/-- `VectorStore.__init__` (the token comes from the environment). -/
noncomputable def VectorStore.fresh (token : String) : VectorStore :=
  { embeddings := none, chunks := [], bm25 := bm25Init,
    initialized := false, hf_token := token }

/-- `VectorStore.add_chunks` from `utils/embeddings.py`. -/
noncomputable def add_chunks (st : VectorStore) (responses : Nat → HFResponse)
    (newChunks : List DocumentChunk) : VectorStore :=
  if newChunks = [] then st
  else
    { embeddings := some (match st.embeddings with
        | none => embed st.hf_token responses (newChunks.map (·.content))
        | some e => e ++ embed st.hf_token responses (newChunks.map (·.content))),
      chunks := st.chunks ++ newChunks,
      bm25 := bm25_fit st.bm25 ((st.chunks ++ newChunks).map (·.content)),
      initialized := true,
      hf_token := st.hf_token }

/-- `VectorStore.clear` from `utils/embeddings.py`. -/
noncomputable def VectorStore.clear (st : VectorStore) : VectorStore :=
  { embeddings := none, chunks := [], bm25 := bm25Init,
    initialized := false, hf_token := st.hf_token }

/-- Row count of the optional embedding matrix (absent counts as zero). -/
noncomputable def matrixRows : Option (List (List ℝ)) → Nat
  | none => 0
  | some e => e.length

/-- The three-part lock-step invariant of the spec:
`len(chunks) == embedding_matrix.rows == sparse_index.corpus_size`. -/
def StoreInv (st : VectorStore) : Prop :=
  st.chunks.length = matrixRows st.embeddings ∧
  st.chunks.length = st.bm25.corpus_size

/-! ## Helper lemmas about `embed` -/

/-- If no attempt that the loop can reach succeeds, the loop yields `none`. -/
lemma embedLoop_eq_none (responses : Nat → HFResponse) :
    ∀ (fuel a : Nat), (∀ j, j < fuel → ∀ p, responses (a + j) ≠ .success p) →
      embedLoop responses a fuel = none := by
  intro fuel
  induction fuel with
  | zero => intro a _; rfl
  | succ f ih =>
    intro a hf
    show (match responses a with
      | .success p => some p.toMatrix
      | .loading => embedLoop responses (a + 1) f
      | .failure => none
      | .exept => none) = none
    rcases hr : responses a with p | _ | _ | _
    · exact absurd hr (by simpa using hf 0 (by omega) p)
    · exact ih (a + 1) (fun j hj p => by
        have := hf (j + 1) (by omega) p
        simpa [Nat.add_assoc, Nat.add_comm, Nat.add_left_comm] using this)
    · rfl
    · rfl

/-- Any matrix the loop returns came from some successful attempt. -/
lemma embedLoop_eq_some (responses : Nat → HFResponse) :
    ∀ (fuel a : Nat) (m : List (List ℝ)), embedLoop responses a fuel = some m →
      ∃ a' p, responses a' = .success p ∧ m = p.toMatrix := by
  intro fuel
  induction fuel with
  | zero => intro a m h; exact absurd h (by simp [embedLoop])
  | succ f ih =>
    intro a m h
    rw [show embedLoop responses a (f + 1) = (match responses a with
      | .success p => some p.toMatrix
      | .loading => embedLoop responses (a + 1) f
      | .failure => none
      | .exept => none) from rfl] at h
    rcases hr : responses a with p | _ | _ | _ <;> rw [hr] at h
    · exact ⟨a, p, hr, by injection h with h; exact h.symm⟩
    · exact ih (a + 1) m h
    · exact absurd h (by simp)
    · exact absurd h (by simp)

/-- The embedding call always returns one row per input text, provided a
successful payload follows the provider's shape contract (one row per
input, as the HF feature-extraction API documents and the source's
reshape comment records). -/
lemma embed_length (hf_token : String) (responses : Nat → HFResponse)
    (texts : List (List Char))
    (hresp : ∀ a p, responses a = HFResponse.success p →
      p.toMatrix.length = texts.length) :
    (embed hf_token responses texts).length = texts.length := by
  unfold embed
  by_cases hc : hf_token = "" ∨ texts = []
  · rw [if_pos hc]; simp [zerosMatrix]
  · rw [if_neg hc]
    cases hl : embedLoop responses 0 3 with
    | none => simp [zerosMatrix]
    | some m =>
      obtain ⟨a', p, hs, hm⟩ := embedLoop_eq_some responses 3 0 m hl
      simp [hm, hresp a' p hs]

/-! ## Claim theorems about `embed` and the store mutations -/

/-- **C7.** Whenever the embedding provider is unconfigured (empty token)
or none of the (at most 3) attempts returns a success — covering timeouts,
non-success statuses and repeated 503s — `embed` returns the all-zero
matrix with exactly one 384-dimensional row per input text.  `embed` is a
total function of its oracle in this model, so no failure of the provider
can propagate an exception to `add_chunks` or the ranking operation. -/
theorem embed_failure_returns_zeros (token : String) (responses : Nat → HFResponse)
    (texts : List (List Char))
    (h : token = "" ∨ ∀ a, a < 3 → ∀ p, responses a ≠ HFResponse.success p) :
    embed token responses texts = zerosMatrix texts.length EMBED_DIM := by
  rcases h with h | h
  · unfold embed; rw [if_pos (Or.inl h)]
  · unfold embed
    by_cases hc : token = "" ∨ texts = []
    · rw [if_pos hc]
    · rw [if_neg hc, embedLoop_eq_none responses 3 0 (fun j hj p => by simpa using h j hj p)]
      rfl

/-- Witness for `embed_failure_returns_zeros`: no token, every attempt a
hard failure, one input text. -/
theorem embed_failure_returns_zeros_witness :
    (("" : String) = "" ∨ ∀ a, a < 3 → ∀ p,
        (fun _ => HFResponse.failure) a ≠ HFResponse.success p) ∧
    embed "" (fun _ => HFResponse.failure) [['h'], ['i']] = zerosMatrix 2 EMBED_DIM :=
  ⟨Or.inl rfl, embed_failure_returns_zeros "" (fun _ => HFResponse.failure)
    [['h'], ['i']] (Or.inl rfl)⟩

/-- **C9.** `add_chunks` with an empty chunk list is a complete no-op: the
store (chunk list, matrix, BM25 index, `_initialized` flag, token) is
returned unchanged, for every response oracle — in particular the
embedding provider is never consulted. -/
theorem add_chunks_empty_noop (st : VectorStore) (responses : Nat → HFResponse) :
    add_chunks st responses [] = st := rfl

/-- **C2.** After a successful `add_chunks` with a non-empty chunk list
(under the provider's one-row-per-text shape contract), and after `clear`,
the chunk count, the embedding-matrix row count (an absent matrix counting
as zero rows) and the BM25 `corpus_size` coincide. -/
theorem store_mutation_invariant (st : VectorStore) (responses : Nat → HFResponse)
    (newChunks : List DocumentChunk) (hne : newChunks ≠ []) (hinv : StoreInv st)
    (hresp : ∀ a p, responses a = HFResponse.success p →
      p.toMatrix.length = newChunks.length) :
    StoreInv (add_chunks st responses newChunks) ∧ StoreInv (VectorStore.clear st) := by
  constructor
  · have hlen : (embed st.hf_token responses (newChunks.map (·.content))).length
        = newChunks.length := by
      rw [embed_length st.hf_token responses _ (by simpa using hresp)]
      simp
    unfold add_chunks
    rw [if_neg hne]
    constructor
    · cases he : st.embeddings with
      | none =>
        have h0 : st.chunks.length = 0 := by rw [hinv.1, he]; rfl
        simp [matrixRows, he, hlen, h0]
      | some e =>
        have h0 : st.chunks.length = e.length := by rw [hinv.1, he]; rfl
        simp [matrixRows, he, hlen, h0]
    · simp [bm25_fit]
  · exact ⟨rfl, rfl⟩

/-- Witness store and chunk for `store_mutation_invariant`. -/
theorem store_mutation_invariant_witness :
    ([⟨['a'], 0, "a.txt", "txt", [], []⟩] : List DocumentChunk) ≠ [] ∧
    StoreInv (VectorStore.fresh "") ∧
    StoreInv (add_chunks (VectorStore.fresh "") (fun _ => HFResponse.failure)
      [⟨['a'], 0, "a.txt", "txt", [], []⟩]) ∧
    StoreInv ((VectorStore.fresh "").clear) := by
  refine ⟨by simp, ⟨rfl, rfl⟩, ?_⟩
  have := store_mutation_invariant (VectorStore.fresh "") (fun _ => HFResponse.failure)
    [⟨['a'], 0, "a.txt", "txt", [], []⟩] (by simp) ⟨rfl, rfl⟩ (fun a p h => nomatch h)
  exact ⟨this.1, this.2⟩

/-! ## Claim theorem about BM25 totality (no division by zero) -/

/-- **C10.** On any fitted corpus, if a query token is present in
`doc_freqs` (positive document frequency), then `avg_dl` is strictly
positive and every per-document BM25 denominator is strictly positive, so
`BM25.score` never divides by zero. -/
theorem bm25_score_denominators_positive (corpus : List (List Char)) (token : List Char)
    (h : 0 < (bm25_fit bm25Init corpus).doc_freqs token) :
    0 < (bm25_fit bm25Init corpus).avg_dl ∧
    ∀ i : Nat, 0 < bm25_denom (bm25_fit bm25Init corpus)
        (((bm25_fit bm25Init corpus).tokenized_corpus.getD i []).count token)
        ((bm25_fit bm25Init corpus).doc_lens.getD i 0) := by
  have havg : 0 < (bm25_fit bm25Init corpus).avg_dl := by
    simp only [bm25_fit] at h ⊢
    rw [List.length_pos] at h
    obtain ⟨d, hd⟩ := List.exists_mem_of_ne_nil _ h
    have hdm := List.of_mem_filter hd
    have hdd : d ∈ corpus.map tokenize := List.mem_of_mem_filter hd
    have hdne : d ≠ [] := by
      intro hnil
      rw [hnil] at hdm
      simp at hdm
    have hlen : 1 ≤ d.length := by
      rcases d with _ | ⟨x, xs⟩
      · exact absurd rfl hdne
      · simp
    have hsum : 1 ≤ ((corpus.map tokenize).map List.length).sum := by
      calc 1 ≤ d.length := hlen
        _ ≤ ((corpus.map tokenize).map List.length).sum :=
          List.single_le_sum (fun x _ => Nat.zero_le x) _ (List.mem_map_of_mem _ hdd)
    apply div_pos
    · exact_mod_cast Nat.lt_of_lt_of_le Nat.zero_lt_one hsum
    · have : 1 ≤ max corpus.length 1 := le_max_right _ _
      exact_mod_cast Nat.lt_of_lt_of_le Nat.zero_lt_one this
  refine ⟨havg, fun i => ?_⟩
  unfold bm25_denom
  have hk1 : (bm25_fit bm25Init corpus).k1 = 3/2 := rfl
  have hb : (bm25_fit bm25Init corpus).b = 3/4 := rfl
  rw [hk1, hb]
  have htf : (0 : ℝ) ≤ (((bm25_fit bm25Init corpus).tokenized_corpus.getD i []).count token : ℝ) :=
    Nat.cast_nonneg _
  have hdl : (0 : ℝ) ≤ (((bm25_fit bm25Init corpus).doc_lens.getD i 0) : ℝ) :=
    Nat.cast_nonneg _
  have hdiv : (0 : ℝ) ≤ 3 / 4 * (((bm25_fit bm25Init corpus).doc_lens.getD i 0) : ℝ) /
      (bm25_fit bm25Init corpus).avg_dl :=
    div_nonneg (by positivity) (le_of_lt havg)
  linarith

/-- Witness corpus and token for `bm25_score_denominators_positive`. -/
theorem bm25_score_denominators_positive_witness :
    0 < (bm25_fit bm25Init ["hello world".toList, "foo".toList]).doc_freqs
        "hello".toList ∧
    0 < (bm25_fit bm25Init ["hello world".toList, "foo".toList]).avg_dl ∧
    ∀ i : Nat, 0 < bm25_denom (bm25_fit bm25Init ["hello world".toList, "foo".toList])
        (((bm25_fit bm25Init ["hello world".toList, "foo".toList]).tokenized_corpus.getD
            i []).count "hello".toList)
        (((bm25_fit bm25Init ["hello world".toList, "foo".toList]).doc_lens.getD i 0)) := by
  refine ⟨by decide, ?_⟩
  exact bm25_score_denominators_positive ["hello world".toList, "foo".toList]
    "hello".toList (by decide)

/-! ## Hybrid search (`VectorStore.hybrid_search`) -/

/-- `SEMANTIC_WEIGHT = 0.6` from `backend/config.py`. -/
noncomputable def SEMANTIC_WEIGHT : ℝ := 3/5

/-- `KEYWORD_WEIGHT = 0.4` from `backend/config.py`. -/
noncomputable def KEYWORD_WEIGHT : ℝ := 2/5

/-- `TOP_K_RESULTS = 8` from `backend/config.py` (the `top_k` default). -/
def TOP_K_RESULTS : Int := 8

/-- The `1e-10` guard added to every L2 norm before dividing. -/
noncomputable def EPS10 : ℝ := 1 / 10000000000

/-- `np.linalg.norm` of a vector. -/
noncomputable def np_norm (v : List ℝ) : ℝ := Real.sqrt ((v.map fun x => x * x).sum)

/-- A vector divided by its guarded L2 norm (`v / (norm(v) + 1e-10)`). -/
noncomputable def normalizeVec (v : List ℝ) : List ℝ :=
  v.map fun x => x / (np_norm v + EPS10)

/-- `np.dot` of two equal-length vectors. -/
noncomputable def dotList (a b : List ℝ) : ℝ := ((a.zip b).map fun p => p.1 * p.2).sum

/-- `arr.max()` of a numpy array (always called on non-empty arrays here). -/
noncomputable def npMax (l : List ℝ) : ℝ := l.foldl max (l.headD 0)

/-- `self.embed([query])[0]` from `hybrid_search`. -/
noncomputable def query_embedding (st : VectorStore) (qres : Nat → HFResponse)
    (query : List Char) : List ℝ :=
  (embed st.hf_token qres [query]).headD []

/-- The raw cosine-similarity vector of `hybrid_search`: each stored row
and the query embedding are L2-normalized (with the `1e-10` guard), then
dotted.  No clamping of negative values occurs anywhere in the source. -/
noncomputable def semantic_scores (st : VectorStore) (qres : Nat → HFResponse)
    (query : List Char) : List ℝ :=
  ((st.embeddings.getD []).map normalizeVec).map
    fun row => dotList row (normalizeVec (query_embedding st qres query))

/-- Per-vector max-normalization: divide by the maximum only when it is
positive (`if s_max > 0: scores /= s_max`). -/
noncomputable def maxNormalize (l : List ℝ) : List ℝ :=
  if 0 < npMax l then l.map fun x => x / npMax l else l

/-- The normalized dense score vector of `hybrid_search`. -/
noncomputable def norm_semantic (st : VectorStore) (qres : Nat → HFResponse)
    (query : List Char) : List ℝ :=
  maxNormalize (semantic_scores st qres query)

/-- The normalized sparse score vector of `hybrid_search`. -/
noncomputable def norm_keyword (st : VectorStore) (query : List Char) : List ℝ :=
  maxNormalize (bm25_score st.bm25 query)

/-- `combined = SEMANTIC_WEIGHT * semantic + KEYWORD_WEIGHT * keyword`. -/
noncomputable def combined_scores (st : VectorStore) (qres : Nat → HFResponse)
    (query : List Char) : List ℝ :=
  List.zipWith (fun a b => SEMANTIC_WEIGHT * a + KEYWORD_WEIGHT * b)
    (norm_semantic st qres query) (norm_keyword st query)

/-- `np.argsort(combined)` (ascending).  numpy's sort is stable on the
small arrays arising here (insertion sort below 16 elements), so argsort is
modelled as the stable ascending sort of the index list: indices ordered by
value, ties by index. -/
noncomputable def argsortIdx (l : List ℝ) : List Nat :=
  List.insertionSort
    (fun i j => l.getD i 0 < l.getD j 0 ∨ (l.getD i 0 = l.getD j 0 ∧ i ≤ j))
    (List.range l.length)

/-- Python slice `xs[:k]` for an `int` bound `k`: non-negative `k` takes a
prefix; negative `k` drops the last `|k|` elements. -/
def pySliceTo {α : Type} (k : Int) (xs : List α) : List α :=
  if 0 ≤ k then xs.take k.toNat else xs.take (xs.length - (-k).toNat)

/-- `top_indices = np.argsort(combined)[::-1][:top_k]` of `hybrid_search`. -/
noncomputable def top_indices (st : VectorStore) (qres : Nat → HFResponse)
    (query : List Char) (top_k : Int) : List Nat :=
  pySliceTo top_k (argsortIdx (combined_scores st qres query)).reverse

/-- Out-of-range placeholder for `chunks[i]` (never reached: the indices
come from `range(len(chunks))`). -/
def chunkDefault : DocumentChunk := ⟨[], 0, "", "", [], []⟩

/-- `VectorStore.hybrid_search` from `utils/embeddings.py` (default
`top_k = TOP_K_RESULTS`): guard, score pipeline, selection, and the final
`combined[i] > 0` filter. -/
noncomputable def hybrid_search (st : VectorStore) (qres : Nat → HFResponse)
    (query : List Char) (top_k : Int) : List (DocumentChunk × ℝ) :=
  if ¬ st.initialized ∨ st.chunks = [] then []
  else (top_indices st qres query top_k).filterMap fun i =>
    if 0 < (combined_scores st qres query).getD i 0 then
      some (st.chunks.getD i chunkDefault, (combined_scores st qres query).getD i 0)
    else none

/-- Modelled from the spec: step 4 of the Hybrid Ranker (§4.4), the
`file_filter` handling that `utils/embeddings.py` does not implement even
though `LexiSenseAgent._build_context` passes `file_filter=` to
`hybrid_search` — when the filter is set, zero `combined[i]` for every
chunk whose source filename differs, after normalization. -/
noncomputable def combined_scores_filtered (st : VectorStore) (qres : Nat → HFResponse)
    (query : List Char) (ff : Option String) : List ℝ :=
  match ff with
  | none => combined_scores st qres query
  | some f => (combined_scores st qres query).mapIdx fun i x =>
      if (st.chunks.getD i chunkDefault).filename = f then x else 0

/-- Modelled from the spec: the Hybrid Ranker `rank` of §4.4 with its
optional `file_filter`, i.e. the code's `hybrid_search` with the filtered
combined vector in place of the raw one. -/
noncomputable def hybrid_search_filtered (st : VectorStore) (qres : Nat → HFResponse)
    (query : List Char) (top_k : Int) (ff : Option String) : List (DocumentChunk × ℝ) :=
  if ¬ st.initialized ∨ st.chunks = [] then []
  else (pySliceTo top_k (argsortIdx (combined_scores_filtered st qres query ff)).reverse).filterMap
    fun i =>
      if 0 < (combined_scores_filtered st qres query ff).getD i 0 then
        some (st.chunks.getD i chunkDefault, (combined_scores_filtered st qres query ff).getD i 0)
      else none

/-! ## Generic lemmas about the selection pipeline -/

/-- The comparison used by `argsortIdx` is total. -/
lemma argsortRel_total (l : List ℝ) :
    ∀ a b : Nat, (l.getD a 0 < l.getD b 0 ∨ (l.getD a 0 = l.getD b 0 ∧ a ≤ b)) ∨
      (l.getD b 0 < l.getD a 0 ∨ (l.getD b 0 = l.getD a 0 ∧ b ≤ a)) := by
  intro a b
  rcases lt_trichotomy (l.getD a 0) (l.getD b 0) with h | h | h
  · exact Or.inl (Or.inl h)
  · rcases Nat.le_total a b with hab | hab
    · exact Or.inl (Or.inr ⟨h, hab⟩)
    · exact Or.inr (Or.inr ⟨h.symm, hab⟩)
  · exact Or.inr (Or.inl h)

/-- The comparison used by `argsortIdx` is transitive. -/
lemma argsortRel_trans (l : List ℝ) :
    ∀ a b c : Nat,
      (l.getD a 0 < l.getD b 0 ∨ (l.getD a 0 = l.getD b 0 ∧ a ≤ b)) →
      (l.getD b 0 < l.getD c 0 ∨ (l.getD b 0 = l.getD c 0 ∧ b ≤ c)) →
      (l.getD a 0 < l.getD c 0 ∨ (l.getD a 0 = l.getD c 0 ∧ a ≤ c)) := by
  intro a b c hab hbc
  rcases hab with h | ⟨he, hle⟩
  · rcases hbc with h2 | ⟨he2, _⟩
    · exact Or.inl (h.trans h2)
    · exact Or.inl (he2 ▸ h)
  · rcases hbc with h2 | ⟨he2, hle2⟩
    · exact Or.inl (he ▸ h2)
    · exact Or.inr ⟨he.trans he2, hle.trans hle2⟩

/-- `argsortIdx` is sorted for its comparison. -/
lemma argsortIdx_sorted (l : List ℝ) :
    (argsortIdx l).Pairwise
      (fun i j => l.getD i 0 < l.getD j 0 ∨ (l.getD i 0 = l.getD j 0 ∧ i ≤ j)) := by
  haveI : IsTotal Nat
      (fun i j => l.getD i 0 < l.getD j 0 ∨ (l.getD i 0 = l.getD j 0 ∧ i ≤ j)) :=
    ⟨argsortRel_total l⟩
  haveI : IsTrans Nat
      (fun i j => l.getD i 0 < l.getD j 0 ∨ (l.getD i 0 = l.getD j 0 ∧ i ≤ j)) :=
    ⟨argsortRel_trans l⟩
  exact List.sorted_insertionSort _ _

/-- `argsortIdx` has no duplicate indices. -/
lemma argsortIdx_nodup (l : List ℝ) : (argsortIdx l).Nodup :=
  ((List.perm_insertionSort _ _).nodup_iff).mpr (List.nodup_range _)

/-- `getD 0` commutes with dividing every entry by a constant. -/
lemma getD_map_div (l : List ℝ) (m : ℝ) (i : Nat) :
    (l.map fun x => x / m).getD i 0 = l.getD i 0 / m := by
  rcases Nat.lt_or_ge i l.length with h | h
  · rw [List.getD_eq_getElem _ _ (by simpa using h), List.getD_eq_getElem _ _ h]
    simp
  · rw [List.getD_eq_default _ _ (by simpa using h), List.getD_eq_default _ _ h]
    simp

/-! ## Claim theorems about the selection pipeline -/

/-- **C4, amended.** `hybrid_search` with `top_k = 0` returns the empty
sequence for every store, oracle and query (a negative `top_k` instead
drops the last `|top_k|` entries of the descending ranking, Python slice
semantics, and so can return a non-empty result — see the counterexample). -/
theorem hybrid_search_topk_zero_empty (st : VectorStore) (qres : Nat → HFResponse)
    (query : List Char) : hybrid_search st qres query 0 = [] := by
  unfold hybrid_search
  by_cases hg : ¬ st.initialized ∨ st.chunks = []
  · rw [if_pos hg]
  · rw [if_neg hg]
    unfold top_indices pySliceTo
    simp

/-- **C5, amended.** The selected index sequence of `hybrid_search` is
ordered by strictly descending combined score, with ties ordered by
*descending* corpus index: the ascending argsort is stable (earlier index
first among equals), and the subsequent `[::-1]` reversal puts the
later-inserted chunk first.  (This models numpy's argsort as stable, which
holds for the insertion sort numpy uses below 16 elements.) -/
theorem hybrid_search_ties_reverse_order (st : VectorStore) (qres : Nat → HFResponse)
    (query : List Char) (top_k : Int) :
    (top_indices st qres query top_k).Pairwise (fun i j =>
      (combined_scores st qres query).getD j 0 < (combined_scores st qres query).getD i 0 ∨
      ((combined_scores st qres query).getD i 0 = (combined_scores st qres query).getD j 0 ∧
        j < i)) := by
  have hs := argsortIdx_sorted (combined_scores st qres query)
  have hn := argsortIdx_nodup (combined_scores st qres query)
  have hrev := (List.pairwise_reverse.mpr hs).and (List.pairwise_reverse.mpr hn)
  have htake : (top_indices st qres query top_k).Pairwise (fun i j =>
      ((combined_scores st qres query).getD j 0 < (combined_scores st qres query).getD i 0 ∨
        ((combined_scores st qres query).getD j 0 = (combined_scores st qres query).getD i 0 ∧
          j ≤ i)) ∧ j ≠ i) := by
    unfold top_indices pySliceTo
    split
    · exact hrev.sublist (List.take_sublist _ _)
    · exact hrev.sublist (List.take_sublist _ _)
  refine htake.imp ?_
  rintro i j ⟨h | ⟨he, hle⟩, hne⟩
  · exact Or.inl h
  · exact Or.inr ⟨he.symm, lt_of_le_of_ne hle hne⟩

/-- **C6, amended.** Cosine similarities are *not* clamped to `≥ 0`: a
negative entry of the raw dense score vector stays negative in the
max-normalized dense vector whenever normalization happens (positive
maximum), because dividing by a positive constant preserves sign — so
negative dense contributions do enter the weighted combined score. -/
theorem semantic_negative_not_clamped (st : VectorStore) (qres : Nat → HFResponse)
    (query : List Char) (i : Nat)
    (hm : 0 < npMax (semantic_scores st qres query))
    (hneg : (semantic_scores st qres query).getD i 0 < 0) :
    (norm_semantic st qres query).getD i 0 < 0 := by
  unfold norm_semantic maxNormalize
  rw [if_pos hm, getD_map_div]
  exact div_neg_of_neg_of_pos hneg hm

/-! ## Concrete stores for the selection-pipeline counterexamples -/

/-- A chunk from `a.txt`. -/
def ca : DocumentChunk := ⟨"aaa".toList, 0, "a.txt", "txt", [], []⟩

/-- A chunk from `b.txt`. -/
def cb : DocumentChunk := ⟨"bbb".toList, 1, "b.txt", "txt", [], []⟩

/-- A query sharing no token with either chunk (keyword scores all zero). -/
def qz : List Char := "zzz".toList

/-- Provider oracle returning the 1-dimensional rows `[[1], [1]]`. -/
noncomputable def rsAB : Nat → HFResponse := fun _ => .success (.many [[1], [1]])

/-- Provider oracle returning the 1-dimensional rows `[[1], [-1]]`. -/
noncomputable def rsNeg : Nat → HFResponse := fun _ => .success (.many [[1], [-1]])

/-- Provider oracle returning the single query embedding `[1]`. -/
noncomputable def rsQ : Nat → HFResponse := fun _ => .success (.one [1])

/-- Store holding `ca, cb` with equal embeddings (combined-score tie). -/
noncomputable def storeAB : VectorStore := add_chunks (VectorStore.fresh "t") rsAB [ca, cb]

/-- Store holding `ca, cb` with opposite embeddings (negative similarity). -/
noncomputable def storeNeg : VectorStore := add_chunks (VectorStore.fresh "t") rsNeg [ca, cb]

lemma embed_rsAB : embed "t" rsAB ["aaa".toList, "bbb".toList] = [[1], [1]] := by
  unfold embed
  rw [if_neg (by simp)]
  rfl

lemma embed_rsNeg : embed "t" rsNeg ["aaa".toList, "bbb".toList] = [[1], [-1]] := by
  unfold embed
  rw [if_neg (by simp)]
  rfl

lemma embed_rsQ : embed "t" rsQ [qz] = [[1]] := by
  unfold embed
  rw [if_neg (by simp [qz])]
  rfl

/-- The common shape of `add_chunks` on a fresh store with chunks `ca, cb`. -/
lemma add_chunks_fresh_eq (rs : Nat → HFResponse) (m : List (List ℝ))
    (hm : embed "t" rs ["aaa".toList, "bbb".toList] = m) :
    add_chunks (VectorStore.fresh "t") rs [ca, cb] =
      { embeddings := some m, chunks := [ca, cb],
        bm25 := bm25_fit bm25Init ["aaa".toList, "bbb".toList],
        initialized := true, hf_token := "t" } := by
  unfold add_chunks VectorStore.fresh
  rw [if_neg (by simp)]
  simp only [List.nil_append]
  rw [show (List.map (fun x => x.content) [ca, cb]) = ["aaa".toList, "bbb".toList] from rfl,
    hm]

lemma storeAB_eq : storeAB =
    { embeddings := some [[1], [1]], chunks := [ca, cb],
      bm25 := bm25_fit bm25Init ["aaa".toList, "bbb".toList],
      initialized := true, hf_token := "t" } :=
  add_chunks_fresh_eq rsAB [[1], [1]] embed_rsAB

lemma storeNeg_eq : storeNeg =
    { embeddings := some [[1], [-1]], chunks := [ca, cb],
      bm25 := bm25_fit bm25Init ["aaa".toList, "bbb".toList],
      initialized := true, hf_token := "t" } :=
  add_chunks_fresh_eq rsNeg [[1], [-1]] embed_rsNeg

/-! ## Evaluating the score pipeline on the concrete stores -/

/-- `1 / (1 + 1e-10)`, the normalized form of a unit 1-d vector. -/
noncomputable def invE : ℝ := 1 / (1 + EPS10)

lemma one_add_EPS10_pos : (0 : ℝ) < 1 + EPS10 := by
  unfold EPS10
  norm_num

lemma invE_pos : 0 < invE := by
  unfold invE
  exact div_pos one_pos one_add_EPS10_pos

lemma np_norm_single (x : ℝ) : np_norm [x] = Real.sqrt (x * x) := by
  simp [np_norm]

lemma np_norm_one : np_norm [(1 : ℝ)] = 1 := by
  rw [np_norm_single]
  simp

lemma np_norm_negone : np_norm [(-1 : ℝ)] = 1 := by
  rw [np_norm_single]
  norm_num

lemma normalizeVec_one : normalizeVec [(1 : ℝ)] = [invE] := by
  unfold normalizeVec invE
  rw [np_norm_one]
  simp

lemma normalizeVec_negone : normalizeVec [(-1 : ℝ)] = [-invE] := by
  unfold normalizeVec invE
  rw [np_norm_negone]
  simp [neg_div]

lemma dotList_single (a b : ℝ) : dotList [a] [b] = a * b := by
  simp [dotList]

lemma query_embedding_eq (st : VectorStore) (hts : st.hf_token = "t") :
    query_embedding st rsQ qz = [1] := by
  unfold query_embedding
  rw [hts, embed_rsQ]
  rfl

lemma semantic_storeAB : semantic_scores storeAB rsQ qz = [invE * invE, invE * invE] := by
  unfold semantic_scores
  rw [query_embedding_eq storeAB (by rw [storeAB_eq])]
  rw [show storeAB.embeddings = some [[1], [1]] by rw [storeAB_eq]]
  simp only [Option.getD_some, List.map_cons, List.map_nil, normalizeVec_one,
    dotList_single]

lemma semantic_storeNeg : semantic_scores storeNeg rsQ qz = [invE * invE, -(invE * invE)] := by
  unfold semantic_scores
  rw [query_embedding_eq storeNeg (by rw [storeNeg_eq])]
  rw [show storeNeg.embeddings = some [[1], [-1]] by rw [storeNeg_eq]]
  simp only [Option.getD_some, List.map_cons, List.map_nil, normalizeVec_one,
    normalizeVec_negone, dotList_single]
  norm_num

lemma npMax_pair_same (a : ℝ) : npMax [a, a] = a := by
  simp [npMax]

lemma npMax_pair_negsnd (a : ℝ) (h : 0 < a) : npMax [a, -a] = a := by
  simp only [npMax, List.headD, List.foldl_cons, List.foldl_nil, max_self]
  exact max_eq_left (by linarith)

lemma invE2_pos : 0 < invE * invE := mul_pos invE_pos invE_pos

lemma norm_semantic_storeAB : norm_semantic storeAB rsQ qz = [1, 1] := by
  unfold norm_semantic maxNormalize
  rw [semantic_storeAB, npMax_pair_same]
  rw [if_pos invE2_pos]
  simp [div_self (ne_of_gt invE2_pos)]

lemma norm_semantic_storeNeg : norm_semantic storeNeg rsQ qz = [1, -1] := by
  unfold norm_semantic maxNormalize
  rw [semantic_storeNeg, npMax_pair_negsnd _ invE2_pos]
  rw [if_pos invE2_pos]
  simp [div_self (ne_of_gt invE2_pos), neg_div]

lemma bm25_score_ab_qz :
    bm25_score (bm25_fit bm25Init ["aaa".toList, "bbb".toList]) qz = [0, 0] := by
  unfold bm25_score
  rw [if_neg (by
    rintro (h | h)
    · exact absurd h (by decide)
    · exact absurd h (by decide))]
  rw [show tokenize qz = [['z', 'z', 'z']] from rfl]
  simp only [List.foldl_cons, List.foldl_nil]
  rw [if_pos (show (bm25_fit bm25Init ["aaa".toList, "bbb".toList]).doc_freqs
      ['z', 'z', 'z'] = 0 by decide)]
  rfl

lemma norm_keyword_ab (st : VectorStore)
    (hb : st.bm25 = bm25_fit bm25Init ["aaa".toList, "bbb".toList]) :
    norm_keyword st qz = [0, 0] := by
  unfold norm_keyword maxNormalize
  rw [hb, bm25_score_ab_qz, npMax_pair_same]
  simp

lemma combined_storeAB :
    combined_scores storeAB rsQ qz = [SEMANTIC_WEIGHT, SEMANTIC_WEIGHT] := by
  unfold combined_scores
  rw [norm_semantic_storeAB, norm_keyword_ab storeAB (by rw [storeAB_eq])]
  simp

lemma combined_storeNeg :
    combined_scores storeNeg rsQ qz = [SEMANTIC_WEIGHT, -SEMANTIC_WEIGHT] := by
  unfold combined_scores
  rw [norm_semantic_storeNeg, norm_keyword_ab storeNeg (by rw [storeNeg_eq])]
  simp

lemma SEMANTIC_WEIGHT_pos : (0 : ℝ) < SEMANTIC_WEIGHT := by
  unfold SEMANTIC_WEIGHT
  norm_num

/-! ## Evaluating argsort and selection on two-element score lists -/

lemma argsortIdx_two_le (l : List ℝ) (hlen : l.length = 2)
    (h : l.getD 0 0 < l.getD 1 0 ∨ l.getD 0 0 = l.getD 1 0) :
    argsortIdx l = [0, 1] := by
  unfold argsortIdx
  rw [hlen, show List.range 2 = [0, 1] from rfl]
  simp only [List.insertionSort, List.orderedInsert]
  rw [if_pos]
  rcases h with h | h
  · exact Or.inl h
  · exact Or.inr ⟨h, by omega⟩

lemma argsortIdx_two_gt (l : List ℝ) (hlen : l.length = 2)
    (h : l.getD 1 0 < l.getD 0 0) : argsortIdx l = [1, 0] := by
  unfold argsortIdx
  rw [hlen, show List.range 2 = [0, 1] from rfl]
  simp only [List.insertionSort, List.orderedInsert]
  rw [if_neg]
  rintro (h2 | ⟨h2, _⟩)
  · exact absurd h2 (not_lt_of_gt h)
  · exact absurd h2 (ne_of_gt h)

lemma top_indices_storeAB (k : Int) :
    top_indices storeAB rsQ qz k = pySliceTo k [1, 0] := by
  unfold top_indices
  rw [combined_storeAB,
    argsortIdx_two_le [SEMANTIC_WEIGHT, SEMANTIC_WEIGHT] rfl (Or.inr rfl)]
  rfl

/-- Evaluation of `hybrid_search` on the tie store. -/
lemma hybrid_search_storeAB (k : Int) :
    hybrid_search storeAB rsQ qz k =
      (pySliceTo k [1, 0]).filterMap fun i =>
        if 0 < ([SEMANTIC_WEIGHT, SEMANTIC_WEIGHT] : List ℝ).getD i 0 then
          some (([ca, cb] : List DocumentChunk).getD i chunkDefault,
            ([SEMANTIC_WEIGHT, SEMANTIC_WEIGHT] : List ℝ).getD i 0)
        else none := by
  unfold hybrid_search
  rw [if_neg (by rw [storeAB_eq]; simp)]
  rw [top_indices_storeAB, combined_storeAB,
    show storeAB.chunks = [ca, cb] by rw [storeAB_eq]]

/-- Selection keeps one pair per index when all selected scores are
positive. -/
lemma filterMap_sel_pos (chunks : List DocumentChunk) (comb : List ℝ) :
    ∀ idx : List Nat, (∀ i ∈ idx, 0 < comb.getD i 0) →
      (idx.filterMap fun i => if 0 < comb.getD i 0 then
          some (chunks.getD i chunkDefault, comb.getD i 0) else none) =
        idx.map fun i => (chunks.getD i chunkDefault, comb.getD i 0) := by
  intro idx
  induction idx with
  | nil => intro _; rfl
  | cons a l ih =>
    intro h
    have hfa : (fun i => if 0 < comb.getD i 0 then
        some (chunks.getD i chunkDefault, comb.getD i 0) else none) a =
        some (chunks.getD a chunkDefault, comb.getD a 0) :=
      if_pos (h a (List.mem_cons_self a l))
    rw [@List.filterMap_cons_some _ _
        (fun i => if 0 < comb.getD i 0 then
          some (chunks.getD i chunkDefault, comb.getD i 0) else none) a l _ hfa,
      List.map_cons, ih fun i hi => h i (List.mem_cons_of_mem a hi)]

/-! ## Claim theorems: the concrete counterexamples -/

/-- **C4, counterexample.** `top_k = -1 ≤ 0`, yet on a two-chunk store the
ranking returns a (non-empty) one-element list: Python's `[:top_k]` with a
negative bound drops the last `|top_k|` entries instead of all of them. -/
theorem hybrid_search_negative_topk_nonempty :
    (-1 : Int) ≤ 0 ∧
    hybrid_search storeAB rsQ qz (-1) = [(cb, SEMANTIC_WEIGHT)] ∧
    ((cb, SEMANTIC_WEIGHT) :: ([] : List (DocumentChunk × ℝ))) ≠ [] := by
  refine ⟨by omega, ?_, by simp⟩
  rw [hybrid_search_storeAB (-1),
    show pySliceTo (-1 : Int) ([1, 0] : List Nat) = [1] from rfl,
    filterMap_sel_pos [ca, cb] [SEMANTIC_WEIGHT, SEMANTIC_WEIGHT] [1]
      (by intro i hi; rw [List.mem_singleton] at hi; subst hi; exact SEMANTIC_WEIGHT_pos)]
  rfl

/-- **C5, counterexample.** Both chunks have exactly equal combined scores,
but with `top_k = 1` the *later-inserted* chunk `cb` is selected (and the
earlier `ca` is not): ascending stable argsort puts the earlier index
first, and the `[::-1]` reversal then prefers the later index — the
opposite of the claimed earlier-wins tie-breaking. -/
theorem hybrid_search_tie_selects_later :
    combined_scores storeAB rsQ qz = [SEMANTIC_WEIGHT, SEMANTIC_WEIGHT] ∧
    hybrid_search storeAB rsQ qz 1 = [(cb, SEMANTIC_WEIGHT)] ∧
    cb ≠ ca := by
  refine ⟨combined_storeAB, ?_, by decide⟩
  rw [hybrid_search_storeAB 1,
    show pySliceTo (1 : Int) ([1, 0] : List Nat) = [1] from rfl,
    filterMap_sel_pos [ca, cb] [SEMANTIC_WEIGHT, SEMANTIC_WEIGHT] [1]
      (by intro i hi; rw [List.mem_singleton] at hi; subst hi; exact SEMANTIC_WEIGHT_pos)]
  rfl

/-- **C6, counterexample.** With stored embeddings `[1]` and `[-1]` and
query embedding `[1]`, the second cosine similarity is negative and is
*not* clamped: after max-normalization the dense vector is `[1, -1]` and
the combined vector is `[0.6, -0.6]` — a negative dense contribution
enters both, contradicting the claimed clamping to `≥ 0`. -/
theorem semantic_negative_enters_combined :
    norm_semantic storeNeg rsQ qz = [1, -1] ∧
    combined_scores storeNeg rsQ qz = [SEMANTIC_WEIGHT, -SEMANTIC_WEIGHT] ∧
    (-1 : ℝ) < 0 ∧ -SEMANTIC_WEIGHT < 0 := by
  refine ⟨norm_semantic_storeNeg, combined_storeNeg, by norm_num, ?_⟩
  have := SEMANTIC_WEIGHT_pos
  linarith

/-- Witness for `semantic_negative_not_clamped` on the concrete store. -/
theorem semantic_negative_not_clamped_witness :
    0 < npMax (semantic_scores storeNeg rsQ qz) ∧
    (semantic_scores storeNeg rsQ qz).getD 1 0 < 0 ∧
    (norm_semantic storeNeg rsQ qz).getD 1 0 < 0 := by
  have h1 : 0 < npMax (semantic_scores storeNeg rsQ qz) := by
    rw [semantic_storeNeg, npMax_pair_negsnd _ invE2_pos]
    exact invE2_pos
  have h2 : (semantic_scores storeNeg rsQ qz).getD 1 0 < 0 := by
    rw [semantic_storeNeg]
    show -(invE * invE) < 0
    linarith [invE2_pos]
  exact ⟨h1, h2, semantic_negative_not_clamped storeNeg rsQ qz 1 h1 h2⟩

/-! ## Claim theorem: the missing `file_filter` (C1) -/

lemma combined_filtered_storeAB :
    combined_scores_filtered storeAB rsQ qz (some "a.txt") = [SEMANTIC_WEIGHT, 0] := by
  show (combined_scores storeAB rsQ qz).mapIdx
      (fun i x => if (storeAB.chunks.getD i chunkDefault).filename = "a.txt" then x else 0) =
    [SEMANTIC_WEIGHT, 0]
  rw [combined_storeAB, show storeAB.chunks = [ca, cb] by rw [storeAB_eq]]
  rw [show ([SEMANTIC_WEIGHT, SEMANTIC_WEIGHT] : List ℝ).mapIdx
      (fun i x => if (([ca, cb] : List DocumentChunk).getD i chunkDefault).filename = "a.txt"
        then x else 0) =
      [if (ca : DocumentChunk).filename = "a.txt" then SEMANTIC_WEIGHT else 0,
       if (cb : DocumentChunk).filename = "a.txt" then SEMANTIC_WEIGHT else 0] from rfl]
  rw [if_pos (show (ca : DocumentChunk).filename = "a.txt" from rfl),
    if_neg (show ¬ (cb : DocumentChunk).filename = "a.txt" by decide)]

/-- **C1 (code bug).** The code's ranking operation has no `file_filter`
parameter at all — `LexiSenseAgent._build_context` calls
`hybrid_search(query, file_filter=...)`, which raises `TypeError` in
Python — and the ranking itself applies no filename filtering: on a store
with chunks from `a.txt` and `b.txt` it returns the `b.txt` chunk (first,
even), whereas the spec-modelled filtered ranking with `file_filter =
"a.txt"` returns only the `a.txt` chunk. -/
theorem hybrid_search_ignores_file_filter :
    hybrid_search storeAB rsQ qz TOP_K_RESULTS =
      [(cb, SEMANTIC_WEIGHT), (ca, SEMANTIC_WEIGHT)] ∧
    hybrid_search_filtered storeAB rsQ qz TOP_K_RESULTS (some "a.txt") =
      [(ca, SEMANTIC_WEIGHT)] ∧
    cb.filename = "b.txt" ∧ ca.filename = "a.txt" := by
  refine ⟨?_, ?_, rfl, rfl⟩
  · rw [show (TOP_K_RESULTS : Int) = 8 from rfl, hybrid_search_storeAB 8,
      show pySliceTo (8 : Int) ([1, 0] : List Nat) = [1, 0] from rfl,
      filterMap_sel_pos [ca, cb] [SEMANTIC_WEIGHT, SEMANTIC_WEIGHT] [1, 0]
        (by intro i hi; rcases List.mem_pair.mp hi with h | h <;> subst h <;>
          exact SEMANTIC_WEIGHT_pos)]
    rfl
  · unfold hybrid_search_filtered
    rw [if_neg (by rw [storeAB_eq]; simp)]
    rw [combined_filtered_storeAB,
      argsortIdx_two_gt [SEMANTIC_WEIGHT, 0] rfl
        (by show (0 : ℝ) < SEMANTIC_WEIGHT; exact SEMANTIC_WEIGHT_pos),
      show storeAB.chunks = [ca, cb] by rw [storeAB_eq],
      show pySliceTo (TOP_K_RESULTS : Int) (([1, 0] : List Nat).reverse) = [0, 1] from rfl]
    have hf0 : (fun i => if 0 < ([SEMANTIC_WEIGHT, 0] : List ℝ).getD i 0 then
        some (([ca, cb] : List DocumentChunk).getD i chunkDefault,
          ([SEMANTIC_WEIGHT, 0] : List ℝ).getD i 0) else none) 0 =
        some (ca, SEMANTIC_WEIGHT) := by
      rw [show (fun i => if 0 < ([SEMANTIC_WEIGHT, 0] : List ℝ).getD i 0 then
        some (([ca, cb] : List DocumentChunk).getD i chunkDefault,
          ([SEMANTIC_WEIGHT, 0] : List ℝ).getD i 0) else none) 0 =
        (if (0 : ℝ) < SEMANTIC_WEIGHT then some (ca, SEMANTIC_WEIGHT) else none) from rfl]
      rw [if_pos SEMANTIC_WEIGHT_pos]
    have hf1 : (fun i => if 0 < ([SEMANTIC_WEIGHT, 0] : List ℝ).getD i 0 then
        some (([ca, cb] : List DocumentChunk).getD i chunkDefault,
          ([SEMANTIC_WEIGHT, 0] : List ℝ).getD i 0) else none) 1 = none := by
      rw [show (fun i => if 0 < ([SEMANTIC_WEIGHT, 0] : List ℝ).getD i 0 then
        some (([ca, cb] : List DocumentChunk).getD i chunkDefault,
          ([SEMANTIC_WEIGHT, 0] : List ℝ).getD i 0) else none) 1 =
        (if (0 : ℝ) < 0 then some (cb, (0 : ℝ)) else none) from rfl]
      rw [if_neg (lt_irrefl (0 : ℝ))]
    rw [@List.filterMap_cons_some _ _
        (fun i => if 0 < ([SEMANTIC_WEIGHT, 0] : List ℝ).getD i 0 then
          some (([ca, cb] : List DocumentChunk).getD i chunkDefault,
            ([SEMANTIC_WEIGHT, 0] : List ℝ).getD i 0) else none) 0 [1] _ hf0,
      @List.filterMap_cons_none _ _
        (fun i => if 0 < ([SEMANTIC_WEIGHT, 0] : List ℝ).getD i 0 then
          some (([ca, cb] : List DocumentChunk).getD i chunkDefault,
            ([SEMANTIC_WEIGHT, 0] : List ℝ).getD i 0) else none) 1 [] hf1,
      List.filterMap_nil]

end CortexAI
